import Mathlib

/-!
Shallow embedding of the YouTube Language Filter content script
(src/content/content.js): the script-count heuristic classifier, the
Chrome fallback adapter, the hybrid classifier with its cache, the
filter policy, and the incremental scheduler (queue, drain, processed
markers, generation epochs).

JavaScript numbers that only ever hold small integer counts are
modelled as Nat; the ratio comparisons of the heuristic (for example
hangulRatio >= 0.20) are modelled exactly, by cross multiplication.
For the thresholds used here the IEEE double comparison and the exact
rational comparison agree for every string length a JS engine can
represent, so the exact model is faithful.  JS strings are modelled as Lean
strings (code points instead of UTF-16 units: every character class
used by the script lies in the BMP, where the two coincide).
-/

/-- Set matched by the JS whitespace class and by String.prototype.trim:
tab, LF, VT, FF, CR, space, NBSP, Ogham space mark, the 2000-200A
range, LS, PS, NNBSP, MMSP, ideographic space, BOM. -/
def isJsWs (c : Char) : Bool :=
  decide (c.toNat = 0x9 ∨ c.toNat = 0xA ∨ c.toNat = 0xB ∨ c.toNat = 0xC ∨
    c.toNat = 0xD ∨ c.toNat = 0x20 ∨ c.toNat = 0xA0 ∨ c.toNat = 0x1680 ∨
    (0x2000 ≤ c.toNat ∧ c.toNat ≤ 0x200A) ∨ c.toNat = 0x2028 ∨
    c.toNat = 0x2029 ∨ c.toNat = 0x202F ∨ c.toNat = 0x205F ∨
    c.toNat = 0x3000 ∨ c.toNat = 0xFEFF)

/-- HANGUL_REGEX character class: syllables, Jamo, compatibility Jamo. -/
def isHangul (c : Char) : Bool :=
  decide ((0xAC00 ≤ c.toNat ∧ c.toNat ≤ 0xD7A3) ∨
    (0x1100 ≤ c.toNat ∧ c.toNat ≤ 0x11FF) ∨
    (0x3130 ≤ c.toNat ∧ c.toNat ≤ 0x318F))

/-- HIRAGANA_REGEX character class. -/
def isHiragana (c : Char) : Bool :=
  decide (0x3040 ≤ c.toNat ∧ c.toNat ≤ 0x309F)

/-- KATAKANA_REGEX character class (plus phonetic extensions). -/
def isKatakana (c : Char) : Bool :=
  decide ((0x30A0 ≤ c.toNat ∧ c.toNat ≤ 0x30FF) ∨
    (0x31F0 ≤ c.toNat ∧ c.toNat ≤ 0x31FF))

/-- HAN_REGEX character class: CJK unified ideographs. -/
def isHan (c : Char) : Bool :=
  decide (0x4E00 ≤ c.toNat ∧ c.toNat ≤ 0x9FFF)

/-- LATIN_REGEX character class: A-Z and a-z. -/
def isLatin (c : Char) : Bool :=
  decide ((0x41 ≤ c.toNat ∧ c.toNat ≤ 0x5A) ∨
    (0x61 ≤ c.toNat ∧ c.toNat ≤ 0x7A))

/-- Consume a literal character sequence at the head of a list,
returning the rest, or none when the literal is not a prefix. -/
def consumeLit : List Char → List Char → Option (List Char)
  | [], l => some l
  | _ :: _, [] => none
  | p :: ps, c :: cs => if p = c then consumeLit ps cs else none

/-- One attempted match of URL_REGEX, https?:\/\/[^\s]+ with a greedy
plus, at the head of the list.  When the https scheme is present but no
non-space character follows, the s? cannot backtrack to a successful
http:// match (the fifth character is then s, not a colon), so the
whole attempt fails, exactly as in the JS regex engine. -/
def matchUrl (l : List Char) : Option (List Char) :=
  match consumeLit ("https://".data) l with
  | some rest =>
    if (rest.takeWhile (fun c => !isJsWs c)).isEmpty then none
    else some (rest.dropWhile (fun c => !isJsWs c))
  | none =>
    match consumeLit ("http://".data) l with
    | some rest =>
      if (rest.takeWhile (fun c => !isJsWs c)).isEmpty then none
      else some (rest.dropWhile (fun c => !isJsWs c))
    | none => none

/-- Global regex replace of URL_REGEX by the empty string: scan left to
right, restarting after each match end.  Fuel is the list length; every
step consumes at least one character, so the fuel never runs out. -/
def stripUrlsAux : Nat → List Char → List Char
  | 0, l => l
  | _ + 1, [] => []
  | fuel + 1, c :: rest =>
    match matchUrl (c :: rest) with
    | some remainder => stripUrlsAux fuel remainder
    | none => c :: stripUrlsAux fuel rest

/-- text.replace(URL_REGEX, <empty>) on the character list. -/
def stripUrls (l : List Char) : List Char := stripUrlsAux l.length l

/-- String.prototype.trim on a character list. -/
def jsTrim (l : List Char) : List Char :=
  ((l.dropWhile isJsWs).reverse.dropWhile isJsWs).reverse

/-- String.prototype.trim on strings. -/
def jsTrimStr (s : String) : String := ⟨jsTrim s.data⟩

/-- The normalized character list heuristicDetect works on:
text.replace(URL_REGEX, <empty>).trim(). -/
def normalizeText (text : String) : List Char := jsTrim (stripUrls text.data)

def hangulCount (l : List Char) : Nat := l.countP isHangul

def hiraganaCount (l : List Char) : Nat := l.countP isHiragana

def katakanaCount (l : List Char) : Nat := l.countP isKatakana

/-- kanaCount = hiraganaCount + katakanaCount. -/
def kanaCount (l : List Char) : Nat := hiraganaCount l + katakanaCount l

def hanCount (l : List Char) : Nat := l.countP isHan

def latinCount (l : List Char) : Nat := l.countP isLatin

/-- totalScriptChars = hangulCount + kanaCount + hanCount + latinCount. -/
def totalScriptChars (l : List Char) : Nat :=
  hangulCount l + kanaCount l + hanCount l + latinCount l

def hangulRatio (l : List Char) : ℚ := (hangulCount l : ℚ) / (totalScriptChars l : ℚ)

def kanaRatio (l : List Char) : ℚ := (kanaCount l : ℚ) / (totalScriptChars l : ℚ)

def hanRatio (l : List Char) : ℚ := (hanCount l : ℚ) / (totalScriptChars l : ℚ)

def latinRatio (l : List Char) : ℚ := (latinCount l : ℚ) / (totalScriptChars l : ℚ)

/-- Result of the script heuristic: a language tag and a confidence tier,
both kept as the string literals the source uses. -/
structure HeuristicResult where
  lang : String
  confidence : String
deriving DecidableEq, Repr

/-- heuristicDetect from content.js: ordered decision rules over the
script bucket counts of the URL-stripped, trimmed text.  The nested
early returns of the source are flattened into an if chain; a nested
condition such as the kanaRatio test of the Japanese rule becomes a
conjunction, which preserves fall-through behaviour exactly.  A float
comparison fooRatio >= p/100 is embedded as the exact cross-multiplied
comparison p * total <= 100 * foo; every rule that compares a ratio is
reached only when total >= 2 > 0, where the two are equivalent (and
equal to the IEEE double comparison for every representable length).
The comparison hanRatio > latinRatio shares the positive denominator,
so it is embedded as latinCount < hanCount.  The rule chain is factored
out over the five bucket counts; heuristicDetect applies it to the
counts of the normalized text. -/
def classifyCounts (hangul kana han latin : Nat) : HeuristicResult :=
  let total := hangul + kana + han + latin
  if total < 2 then ⟨"unknown", "low"⟩
  else if 2 ≤ hangul ∧ (20 * total ≤ 100 * hangul ∨ kana < hangul) then
    ⟨"ko", "high"⟩
  else if 1 ≤ hangul ∧ kana = 0 ∧ han = 0 then
    ⟨"ko", "medium"⟩
  else if 2 ≤ kana ∧ hangul = 0 ∧ 10 * total ≤ 100 * kana then
    ⟨"ja", "high"⟩
  else if 1 ≤ kana ∧ 1 ≤ hangul then
    ⟨"uncertain", "low"⟩
  else if 2 ≤ han ∧ hangul = 0 ∧ kana = 0 ∧
      (30 * total ≤ 100 * han ∨ (20 * total ≤ 100 * han ∧ 100 * latin < 50 * total)) then
    ⟨"zh", "medium"⟩
  else if 30 * total ≤ 100 * latin ∧ hangul = 0 ∧ kana = 0 ∧ han = 0 then
    ⟨"en", "high"⟩
  else if 50 * total ≤ 100 * latin ∧ hangul + kana + han ≤ 1 then
    ⟨"en", "medium"⟩
  else if 1 ≤ han ∧ 1 ≤ latin ∧ hangul = 0 ∧ kana = 0 then
    (if latin < han then ⟨"zh", "low"⟩ else ⟨"uncertain", "low"⟩)
  else ⟨"uncertain", "low"⟩

/-- heuristicDetect = the rule chain on the bucket counts of the
URL-stripped, trimmed text. -/
def heuristicDetect (text : String) : HeuristicResult :=
  let n := normalizeText text
  classifyCounts (hangulCount n) (kanaCount n) (hanCount n) (latinCount n)

/-- The cross-multiplied form used inside heuristicDetect agrees with
the rational ratio comparison whenever the denominator is positive. -/
theorem ratio_le_iff (p num den : ℕ) (hden : 0 < den) :
    (p : ℚ) / 100 ≤ (num : ℚ) / (den : ℚ) ↔ p * den ≤ 100 * num := by
  rw [div_le_div_iff₀ (by norm_num) (by exact_mod_cast hden)]
  constructor
  · intro h
    have : (p * den : ℚ) ≤ (100 * num : ℚ) := by linarith
    exact_mod_cast this
  · intro h
    have : (p * den : ℚ) ≤ (100 * num : ℚ) := by exact_mod_cast h
    push_cast at this
    linarith

example : heuristicDetect "한글" = ⟨"ko", "high"⟩ := by decide
example : heuristicDetect "あ한" = ⟨"uncertain", "low"⟩ := by decide
example : heuristicDetect "한日" = ⟨"uncertain", "low"⟩ := by decide
example : heuristicDetect "hello" = ⟨"en", "high"⟩ := by decide
example : heuristicDetect "!" = ⟨"unknown", "low"⟩ := by decide

/-- ClassificationResult: lang, isUnknown, confidence, as in the spec
data model and in the object literals of detectLanguage. -/
structure ClassificationResult where
  lang : String
  isUnknown : Bool
  confidence : String
deriving DecidableEq, Repr

/-- One entry of the chrome.i18n.detectLanguage result list. -/
structure ChromeLang where
  language : String
  percentage : Int
deriving DecidableEq, Repr

/-- The result object chrome.i18n.detectLanguage passes to its callback. -/
structure ChromeResponse where
  languages : List ChromeLang
deriving DecidableEq, Repr

/-- External behaviour of one chrome.i18n.detectLanguage invocation, as
observed by safeDetectLanguage: whether chrome.runtime is still valid at
call time, whether the call throws synchronously, the value of the
global generationId at the moment the callback fires, whether
chrome.runtime.lastError is set inside the callback, and the result
object (none models a null result). -/
structure ChromeEnv where
  runtimeValid : Bool
  callThrows : Bool
  genAtResolve : Nat
  lastError : Bool
  response : Option ChromeResponse
deriving DecidableEq, Repr

/-- safeDetectLanguage from content.js: resolves null (none) when the
runtime is invalid, the call throws, the captured generation is no
longer current when the callback fires, or lastError is set; otherwise
it resolves the raw chrome result.  The sample argument is the
truncated text handed to chrome; the response it elicits is supplied by
the environment. -/
def safeDetectLanguage (_sample : String) (gen : Nat) (env : ChromeEnv) :
    Option ChromeResponse :=
  if env.runtimeValid = false then none
  else if env.callThrows then none
  else if env.genAtResolve ≠ gen then none
  else if env.lastError then none
  else env.response

/-- Cache key type: the first 100 code units of the text. -/
abbrev CacheKey := List Char

/-- The langCache Map, as an association list; cacheSet prepends, so
lookup returns the most recent binding, matching Map get semantics. -/
abbrev Cache := List (CacheKey × ClassificationResult)

def cacheGet : Cache → CacheKey → Option ClassificationResult
  | [], _ => none
  | (k, v) :: rest, key => if k = key then some v else cacheGet rest key

def cacheSet (c : Cache) (k : CacheKey) (v : ClassificationResult) : Cache :=
  (k, v) :: c

/-- text.substring(0, 100), the cache key of detectLanguage. -/
def cacheKeyOf (text : String) : CacheKey := text.data.take 100

/-- text.substring(0, SAMPLE_LENGTH) with SAMPLE_LENGTH = 200. -/
def sampleOf (text : String) : String := ⟨text.data.take 200⟩

/-- The reduce((a, b) => a.percentage > b.percentage ? a : b) of
detectLanguage, with the list head as the initial accumulator. -/
def reduceMax (head : ChromeLang) (tail : List ChromeLang) : ChromeLang :=
  tail.foldl (fun a b => if b.percentage < a.percentage then a else b) head

/-- validateChromeResult from content.js: counts are taken on the raw,
untruncated text. -/
def validateChromeResult (detectedLang : String) (text : String) : Bool :=
  if detectedLang = "ja" ∧ 0 < hangulCount text.data ∧ kanaCount text.data = 0 then
    false
  else if detectedLang = "ja" ∧ kanaCount text.data = 0 then false
  else if detectedLang = "ko" ∧ hangulCount text.data = 0 then false
  else true

/-- normalizeLanguageCode from content.js: code.split(<hyphen>)[0] is
the longest hyphen-free prefix; toLowerCase is modelled per character
(chrome language codes are ASCII, where Char.toLower coincides with the
JS mapping). -/
def normalizeLanguageCode (code : String) : String :=
  if code.data.contains '-' then
    ⟨(code.data.takeWhile (fun c => c ≠ '-')).map Char.toLower⟩
  else ⟨code.data.map Char.toLower⟩

/-- Outcome of one detectLanguage call: the classification, the cache
after the call, and how many times the fallback capability was invoked
(0 or 1). -/
structure DetectOutcome where
  result : ClassificationResult
  cache : Cache
  fallbackCalls : Nat
deriving DecidableEq, Repr

/-- detectLanguage from content.js, the hybrid classifier.  Cache hit
returns the memo without consulting the generation.  A decisive
heuristic and a heuristic unknown are cached.  Otherwise the fallback
is invoked: a null resolution returns unknown-low without caching; a
real resolution is arbitrated (top candidate by reduce, normalize,
validate, 40 percent acceptance threshold, 70 percent high-confidence
threshold) and the outcome, accepted or not, is cached. -/
def detectLanguage (text : String) (gen : Nat) (cache : Cache) (env : ChromeEnv) :
    DetectOutcome :=
  match cacheGet cache (cacheKeyOf text) with
  | some r => ⟨r, cache, 0⟩
  | none =>
    let heuristic := heuristicDetect text
    if heuristic.lang ≠ "uncertain" ∧ heuristic.lang ≠ "unknown" then
      let result : ClassificationResult := ⟨heuristic.lang, false, heuristic.confidence⟩
      ⟨result, cacheSet cache (cacheKeyOf text) result, 0⟩
    else if heuristic.lang = "unknown" then
      let result : ClassificationResult := ⟨"unknown", true, "low"⟩
      ⟨result, cacheSet cache (cacheKeyOf text) result, 0⟩
    else
      match safeDetectLanguage (sampleOf text) gen env with
      | none => ⟨⟨"unknown", true, "low"⟩, cache, 1⟩
      | some chromeResult =>
        let result : ClassificationResult :=
          match chromeResult.languages with
          | [] => ⟨"unknown", true, "low"⟩
          | top :: rest =>
            let topLang := reduceMax top rest
            let detectedLang := normalizeLanguageCode topLang.language
            if 40 ≤ topLang.percentage ∧ validateChromeResult detectedLang text = true then
              ⟨detectedLang, false, if 70 ≤ topLang.percentage then "high" else "medium"⟩
            else ⟨"unknown", true, "low"⟩
        ⟨result, cacheSet cache (cacheKeyOf text) result, 1⟩

/-- Settings, as in DEFAULT_SETTINGS and the storage schema. -/
structure Settings where
  enabled : Bool
  allowedLangs : List String
  mode : String
  hideUnknown : Bool
deriving DecidableEq, Repr

/-- shouldFilterComment from content.js; settings is the module-global
settings object, passed explicitly here. -/
def shouldFilterComment (detection : ClassificationResult) (settings : Settings) : Bool :=
  if detection.isUnknown = true ∧ settings.hideUnknown = false then false
  else if detection.isUnknown = true ∧ settings.hideUnknown = true then true
  else if detection.confidence = "low" ∧ settings.hideUnknown = false then false
  else !(settings.allowedLangs.contains detection.lang)

example :
    (detectLanguage "한日" 1 []
      ⟨true, false, 1, false, some ⟨[⟨"ja", 90⟩]⟩⟩).result =
      ⟨"unknown", true, "low"⟩ := by decide
example :
    (detectLanguage "한日" 1 []
      ⟨true, false, 1, false, some ⟨[⟨"fr", 90⟩]⟩⟩).result =
      ⟨"fr", false, "high"⟩ := by decide
example :
    (detectLanguage "한글" 1 [] ⟨true, false, 1, false, none⟩).result =
      ⟨"ko", false, "high"⟩ := by decide

theorem consumeLit_sublist (p : List Char) :
    ∀ l rest, consumeLit p l = some rest → rest.Sublist l := by
  induction p with
  | nil =>
    intro l rest h
    simp [consumeLit] at h
    simp [h]
  | cons p ps ih =>
    intro l rest h
    match l with
    | [] => simp [consumeLit] at h
    | c :: cs =>
      by_cases hpc : p = c
      · simp [consumeLit, hpc] at h
        exact (ih cs rest h).cons c
      · simp [consumeLit, hpc] at h

theorem matchUrl_sublist (l rest : List Char) (h : matchUrl l = some rest) :
    rest.Sublist l := by
  unfold matchUrl at h
  cases hcons : consumeLit ("https://".data) l with
  | some r =>
    rw [hcons] at h
    by_cases he : (r.takeWhile (fun c => !isJsWs c)).isEmpty
    · simp [he] at h
    · simp [he] at h
      rw [← h]
      exact (List.dropWhile_sublist _).trans (consumeLit_sublist _ l r hcons)
  | none =>
    rw [hcons] at h
    cases hcons2 : consumeLit ("http://".data) l with
    | some r =>
      rw [hcons2] at h
      by_cases he : (r.takeWhile (fun c => !isJsWs c)).isEmpty
      · simp [he] at h
      · simp [he] at h
        rw [← h]
        exact (List.dropWhile_sublist _).trans (consumeLit_sublist _ l r hcons2)
    | none => rw [hcons2] at h; exact absurd h (by simp)

theorem stripUrlsAux_sublist : ∀ (fuel : Nat) (l : List Char),
    (stripUrlsAux fuel l).Sublist l := by
  intro fuel
  induction fuel with
  | zero => intro l; simp [stripUrlsAux]
  | succ n ih =>
    intro l
    match l with
    | [] => simp [stripUrlsAux]
    | c :: rest =>
      unfold stripUrlsAux
      cases hm : matchUrl (c :: rest) with
      | some remainder =>
        exact (ih remainder).trans (matchUrl_sublist _ _ hm)
      | none =>
        exact (ih rest).cons₂ c

theorem stripUrls_sublist (l : List Char) : (stripUrls l).Sublist l :=
  stripUrlsAux_sublist l.length l

theorem jsTrim_sublist (l : List Char) : (jsTrim l).Sublist l := by
  unfold jsTrim
  have h1 : (l.dropWhile isJsWs).Sublist l := List.dropWhile_sublist _
  have h2 := List.dropWhile_sublist (l := (l.dropWhile isJsWs).reverse) isJsWs
  have h3 := h2.reverse
  rw [List.reverse_reverse] at h3
  exact h3.trans h1

theorem normalizeText_sublist (text : String) :
    (normalizeText text).Sublist text.data :=
  (jsTrim_sublist _).trans (stripUrls_sublist _)

theorem kanaCount_normalize_le (text : String) :
    kanaCount (normalizeText text) ≤ kanaCount text.data := by
  unfold kanaCount hiraganaCount katakanaCount
  have h := normalizeText_sublist text
  exact Nat.add_le_add (h.countP_le _) (h.countP_le _)

theorem classifyCounts_ko_high (hangul kana han latin : Nat) (h2 : 2 ≤ hangul)
    (hor : 20 * (hangul + kana + han + latin) ≤ 100 * hangul ∨ kana < hangul) :
    classifyCounts hangul kana han latin = ⟨"ko", "high"⟩ := by
  unfold classifyCounts
  rw [if_neg (by omega), if_pos ⟨h2, hor⟩]

/-- C5.  Korean-high rule: whenever the Hangul count of the normalized
text is at least 2 and either the Hangul ratio is at least 0.20 or the
Hangul count exceeds the kana count, heuristicDetect returns lang ko
with high confidence. -/
theorem korean_high_rule (text : String)
    (h2 : 2 ≤ hangulCount (normalizeText text))
    (hor : (0.20 : ℚ) ≤ hangulRatio (normalizeText text) ∨
      kanaCount (normalizeText text) < hangulCount (normalizeText text)) :
    heuristicDetect text = ⟨"ko", "high"⟩ := by
  have htotal : 2 ≤ totalScriptChars (normalizeText text) := by
    unfold totalScriptChars; omega
  have hcross : 20 * (hangulCount (normalizeText text) + kanaCount (normalizeText text) +
      hanCount (normalizeText text) + latinCount (normalizeText text)) ≤
      100 * hangulCount (normalizeText text) ∨
      kanaCount (normalizeText text) < hangulCount (normalizeText text) := by
    rcases hor with hratio | hk
    · left
      have h020 : (0.20 : ℚ) = (20 : ℚ) / 100 := by norm_num
      rw [h020, hangulRatio] at hratio
      have := (ratio_le_iff 20 (hangulCount (normalizeText text))
        (totalScriptChars (normalizeText text)) (by omega)).mp hratio
      unfold totalScriptChars at this
      omega
    · right; exact hk
  simp only [heuristicDetect]
  exact classifyCounts_ko_high _ _ _ _ h2 hcross

/-- Witness for C5: two Hangul syllables. -/
theorem korean_high_rule_witness :
    2 ≤ hangulCount (normalizeText "한글") ∧
      heuristicDetect "한글" = ⟨"ko", "high"⟩ :=
  ⟨by decide, korean_high_rule "한글" (by decide) (Or.inr (by decide))⟩

theorem classifyCounts_no_ja (hangul kana han latin : Nat) (hk : kana = 0) :
    (classifyCounts hangul kana han latin).lang ≠ "ja" := by
  unfold classifyCounts
  by_cases h1 : hangul + kana + han + latin < 2
  · rw [if_pos h1]; simp
  · rw [if_neg h1]
    by_cases h2 : 2 ≤ hangul ∧
        (20 * (hangul + kana + han + latin) ≤ 100 * hangul ∨ kana < hangul)
    · rw [if_pos h2]; simp
    · rw [if_neg h2]
      by_cases h3 : 1 ≤ hangul ∧ kana = 0 ∧ han = 0
      · rw [if_pos h3]; simp
      · rw [if_neg h3]
        have h4 : ¬(2 ≤ kana ∧ hangul = 0 ∧
            10 * (hangul + kana + han + latin) ≤ 100 * kana) := by omega
        rw [if_neg h4]
        by_cases h5 : 1 ≤ kana ∧ 1 ≤ hangul
        · rw [if_pos h5]; simp
        · rw [if_neg h5]
          by_cases h6 : 2 ≤ han ∧ hangul = 0 ∧ kana = 0 ∧
              (30 * (hangul + kana + han + latin) ≤ 100 * han ∨
                (20 * (hangul + kana + han + latin) ≤ 100 * han ∧
                  100 * latin < 50 * (hangul + kana + han + latin)))
          · rw [if_pos h6]; simp
          · rw [if_neg h6]
            by_cases h7 : 30 * (hangul + kana + han + latin) ≤ 100 * latin ∧
                hangul = 0 ∧ kana = 0 ∧ han = 0
            · rw [if_pos h7]; simp
            · rw [if_neg h7]
              by_cases h8 : 50 * (hangul + kana + han + latin) ≤ 100 * latin ∧
                  hangul + kana + han ≤ 1
              · rw [if_pos h8]; simp
              · rw [if_neg h8]
                by_cases h9 : 1 ≤ han ∧ 1 ≤ latin ∧ hangul = 0 ∧ kana = 0
                · rw [if_pos h9]
                  by_cases h10 : latin < han
                  · rw [if_pos h10]; simp
                  · rw [if_neg h10]; simp
                · rw [if_neg h9]; simp

theorem heuristicDetect_no_ja (text : String) (hk : kanaCount text.data = 0) :
    (heuristicDetect text).lang ≠ "ja" := by
  have hkn : kanaCount (normalizeText text) = 0 := by
    have h := kanaCount_normalize_le text
    omega
  simp only [heuristicDetect]
  exact classifyCounts_no_ja _ _ _ _ hkn

theorem validate_ja_false (text : String) (hh : 0 < hangulCount text.data)
    (hk : kanaCount text.data = 0) : validateChromeResult "ja" text = false := by
  unfold validateChromeResult
  rw [if_pos ⟨rfl, hh, hk⟩]

/-- C2.  Hangul with no kana precludes a Japanese verdict on both
classification paths: the heuristic alone never returns ja when the
text has no kana, and on a cache miss the full hybrid classifier never
returns ja when the text has Hangul and no kana, because
validateChromeResult rejects a ja verdict from the fallback. -/
theorem no_ja_when_hangul_without_kana (text : String)
    (hh : 0 < hangulCount text.data) (hk : kanaCount text.data = 0) :
    (heuristicDetect text).lang ≠ "ja" ∧
    ∀ (gen : Nat) (cache : Cache) (env : ChromeEnv),
      cacheGet cache (cacheKeyOf text) = none →
      (detectLanguage text gen cache env).result.lang ≠ "ja" := by
  refine ⟨heuristicDetect_no_ja text hk, ?_⟩
  intro gen cache env hmiss
  simp only [detectLanguage, hmiss]
  by_cases hd : (heuristicDetect text).lang ≠ "uncertain" ∧
      (heuristicDetect text).lang ≠ "unknown"
  · rw [if_pos hd]
    exact heuristicDetect_no_ja text hk
  · rw [if_neg hd]
    by_cases hu : (heuristicDetect text).lang = "unknown"
    · rw [if_pos hu]
      simp
    · rw [if_neg hu]
      cases hsd : safeDetectLanguage (sampleOf text) gen env with
      | none => simp
      | some resp =>
        cases hl : resp.languages with
        | nil => simp [hl]
        | cons top rest =>
          simp only [hl]
          by_cases hacc : 40 ≤ (reduceMax top rest).percentage ∧
              validateChromeResult
                (normalizeLanguageCode (reduceMax top rest).language) text = true
          · rw [if_pos hacc]
            intro hja
            have hv : validateChromeResult "ja" text = true := by
              have := hacc.2
              simp only at hja
              rw [hja] at this
              exact this
            rw [validate_ja_false text hh hk] at hv
            exact absurd hv (by simp)
          · rw [if_neg hacc]
            simp

/-- Witness for C2: a Hangul plus Han text, where the heuristic is
uncertain and the fallback proposes ja at 90 percent, which validation
rejects. -/
theorem no_ja_when_hangul_without_kana_witness :
    0 < hangulCount "한日".data ∧ kanaCount "한日".data = 0 ∧
      cacheGet [] (cacheKeyOf "한日") = none ∧
      (detectLanguage "한日" 1 []
        ⟨true, false, 1, false, some ⟨[⟨"ja", 90⟩]⟩⟩).result.lang ≠ "ja" :=
  ⟨by decide, by decide, by decide,
    (no_ja_when_hangul_without_kana "한日" (by decide) (by decide)).2 1 []
      ⟨true, false, 1, false, some ⟨[⟨"ja", 90⟩]⟩⟩ (by decide)⟩

/-- An unknown classification is canonical when it is exactly
lang unknown, isUnknown true, confidence low. -/
def canonicalUnknown (r : ClassificationResult) : Prop :=
  r.isUnknown = true → r = ⟨"unknown", true, "low"⟩

/-- Every unknown-flagged entry of the cache is canonical. -/
def cacheOK (c : Cache) : Prop :=
  ∀ k r, (k, r) ∈ c → canonicalUnknown r

theorem cacheGet_ok {c : Cache} {k : CacheKey} {r : ClassificationResult}
    (hok : cacheOK c) (h : cacheGet c k = some r) : canonicalUnknown r := by
  induction c with
  | nil => simp [cacheGet] at h
  | cons e rest ih =>
    by_cases he : e.1 = k
    · have : cacheGet (e :: rest) k = some e.2 := by
        simp [cacheGet, he]
      rw [this] at h
      obtain rfl : e.2 = r := by injection h
      exact hok e.1 e.2 (by simp)
    · have : cacheGet (e :: rest) k = cacheGet rest k := by
        simp [cacheGet, he]
      rw [this] at h
      exact ih (fun k2 r2 hm => hok k2 r2 (List.mem_cons_of_mem _ hm)) h

theorem cacheOK_set {c : Cache} {k : CacheKey} {v : ClassificationResult}
    (hok : cacheOK c) (hv : canonicalUnknown v) : cacheOK (cacheSet c k v) := by
  intro k2 r2 hm
  rcases List.mem_cons.mp hm with h | h
  · obtain ⟨rfl, rfl⟩ : k2 = k ∧ r2 = v := by
      constructor <;> [exact congrArg Prod.fst h; exact congrArg Prod.snd h]
    exact hv
  · exact hok k2 r2 h

/-- C10.  Canonical unknown: whenever the unknown-entry invariant holds
of the cache, any result the hybrid classifier returns with isUnknown
true is exactly lang unknown, confidence low, and the returned cache
satisfies the invariant again (so it holds forever from the initial
empty cache, across every path: heuristic unknown, fallback declined or
stale, empty candidate list, below threshold, validation-rejected). -/
theorem unknown_results_canonical (text : String) (gen : Nat) (cache : Cache)
    (env : ChromeEnv) (hok : cacheOK cache) :
    canonicalUnknown (detectLanguage text gen cache env).result ∧
      cacheOK (detectLanguage text gen cache env).cache := by
  cases hc : cacheGet cache (cacheKeyOf text) with
  | some r =>
    simp only [detectLanguage, hc]
    exact ⟨cacheGet_ok hok hc, hok⟩
  | none =>
    simp only [detectLanguage, hc]
    by_cases hd : (heuristicDetect text).lang ≠ "uncertain" ∧
        (heuristicDetect text).lang ≠ "unknown"
    · rw [if_pos hd]
      refine ⟨?_, cacheOK_set hok ?_⟩ <;> (intro hfalse; simp at hfalse)
    · rw [if_neg hd]
      by_cases hu : (heuristicDetect text).lang = "unknown"
      · rw [if_pos hu]
        exact ⟨fun _ => rfl, cacheOK_set hok (fun _ => rfl)⟩
      · rw [if_neg hu]
        cases hsd : safeDetectLanguage (sampleOf text) gen env with
        | none => exact ⟨fun _ => rfl, hok⟩
        | some resp =>
          cases hl : resp.languages with
          | nil =>
            simp only [hl]
            exact ⟨fun _ => rfl, cacheOK_set hok (fun _ => rfl)⟩
          | cons top rest =>
            simp only [hl]
            by_cases hacc : 40 ≤ (reduceMax top rest).percentage ∧
                validateChromeResult
                  (normalizeLanguageCode (reduceMax top rest).language) text = true
            · rw [if_pos hacc]
              refine ⟨?_, cacheOK_set hok ?_⟩ <;> (intro hfalse; simp at hfalse)
            · rw [if_neg hacc]
              exact ⟨fun _ => rfl, cacheOK_set hok (fun _ => rfl)⟩

/-- Witness for C10: the empty cache satisfies the invariant, and a
no-script text classifies to the canonical unknown result. -/
theorem unknown_results_canonical_witness :
    cacheOK ([] : Cache) ∧
      canonicalUnknown
        (detectLanguage "!" 1 [] ⟨true, false, 1, false, none⟩).result :=
  ⟨fun k r hm => absurd hm (by simp),
    (unknown_results_canonical "!" 1 [] ⟨true, false, 1, false, none⟩
      (fun k r hm => absurd hm (by simp))).1⟩

theorem cacheGet_set_self (c : Cache) (k : CacheKey) (v : ClassificationResult) :
    cacheGet (cacheSet c k v) k = some v := by
  simp [cacheGet, cacheSet]

theorem detectLanguage_cache_hit (text : String) (gen : Nat) (cache : Cache)
    (env : ChromeEnv) (r : ClassificationResult)
    (hc : cacheGet cache (cacheKeyOf text) = some r) :
    detectLanguage text gen cache env = ⟨r, cache, 0⟩ := by
  simp only [detectLanguage, hc]

/-- Whenever the fallback call, if reached, resolves with a result
object, detectLanguage leaves its own result in the cache under its own
key. -/
theorem detectLanguage_caches_of_resolves (text : String) (gen : Nat)
    (cache : Cache) (env : ChromeEnv)
    (hres : safeDetectLanguage (sampleOf text) gen env ≠ none) :
    cacheGet (detectLanguage text gen cache env).cache (cacheKeyOf text) =
      some (detectLanguage text gen cache env).result := by
  cases hc : cacheGet cache (cacheKeyOf text) with
  | some r =>
    simp only [detectLanguage, hc]
  | none =>
    simp only [detectLanguage, hc]
    by_cases hd : (heuristicDetect text).lang ≠ "uncertain" ∧
        (heuristicDetect text).lang ≠ "unknown"
    · rw [if_pos hd]
      exact cacheGet_set_self _ _ _
    · rw [if_neg hd]
      by_cases hu : (heuristicDetect text).lang = "unknown"
      · rw [if_pos hu]
        exact cacheGet_set_self _ _ _
      · rw [if_neg hu]
        cases hsd : safeDetectLanguage (sampleOf text) gen env with
        | none => exact absurd hsd hres
        | some resp => exact cacheGet_set_self _ _ _

theorem detectLanguage_calls_le_one (text : String) (gen : Nat) (cache : Cache)
    (env : ChromeEnv) : (detectLanguage text gen cache env).fallbackCalls ≤ 1 := by
  cases hc : cacheGet cache (cacheKeyOf text) with
  | some r =>
    simp only [detectLanguage, hc]
    exact Nat.zero_le 1
  | none =>
    simp only [detectLanguage, hc]
    by_cases hd : (heuristicDetect text).lang ≠ "uncertain" ∧
        (heuristicDetect text).lang ≠ "unknown"
    · rw [if_pos hd]
      exact Nat.zero_le 1
    · rw [if_neg hd]
      by_cases hu : (heuristicDetect text).lang = "unknown"
      · rw [if_pos hu]
        exact Nat.zero_le 1
      · rw [if_neg hu]
        cases hsd : safeDetectLanguage (sampleOf text) gen env with
        | none => exact Nat.le_refl 1
        | some resp => exact Nat.le_refl 1

/-- C3 as amended.  When the first call resolves its fallback (or never
needs it), a second call on the same text under the same epoch answers
from the cache: identical result, no second fallback invocation, at
most one invocation in total.  The unamended claim fails only when the
first fallback declines while the epoch is still current, because a
declined outcome is deliberately not cached. -/
theorem classifier_idempotent_when_fallback_resolves (text : String) (gen : Nat)
    (cache : Cache) (env1 env2 : ChromeEnv)
    (hres : safeDetectLanguage (sampleOf text) gen env1 ≠ none) :
    (detectLanguage text gen (detectLanguage text gen cache env1).cache env2).result =
        (detectLanguage text gen cache env1).result ∧
      (detectLanguage text gen
        (detectLanguage text gen cache env1).cache env2).fallbackCalls = 0 ∧
      (detectLanguage text gen cache env1).fallbackCalls +
        (detectLanguage text gen
          (detectLanguage text gen cache env1).cache env2).fallbackCalls ≤ 1 := by
  have hhit := detectLanguage_caches_of_resolves text gen cache env1 hres
  have h2 := detectLanguage_cache_hit text gen
    (detectLanguage text gen cache env1).cache env2
    (detectLanguage text gen cache env1).result hhit
  rw [h2]
  refine ⟨rfl, rfl, ?_⟩
  have h1 := detectLanguage_calls_le_one text gen cache env1
  simpa using h1

/-- Witness for amended C3: an uncertain text whose fallback resolves
with fr at 80 percent; the second call returns the same result with no
further fallback invocation. -/
theorem classifier_idempotent_witness :
    safeDetectLanguage (sampleOf "あ한") 1
        ⟨true, false, 1, false, some ⟨[⟨"fr", 80⟩]⟩⟩ ≠ none ∧
      (detectLanguage "あ한" 1
        (detectLanguage "あ한" 1 [] ⟨true, false, 1, false, some ⟨[⟨"fr", 80⟩]⟩⟩).cache
        ⟨true, false, 1, false, some ⟨[⟨"fr", 80⟩]⟩⟩).result =
        (detectLanguage "あ한" 1 [] ⟨true, false, 1, false, some ⟨[⟨"fr", 80⟩]⟩⟩).result :=
  ⟨by decide,
    (classifier_idempotent_when_fallback_resolves "あ한" 1 []
      ⟨true, false, 1, false, some ⟨[⟨"fr", 80⟩]⟩⟩
      ⟨true, false, 1, false, some ⟨[⟨"fr", 80⟩]⟩⟩ (by decide)).1⟩

/-- Counterexample to C3 as stated: on an uncertain text with the epoch
still current throughout, a fallback that reports a runtime error on
both calls is invoked twice, because the declined first outcome is not
cached.  The claimed at-most-one bound on fallback invocations fails. -/
theorem idempotence_counterexample :
    ¬((detectLanguage "あ한" 1 [] ⟨true, false, 1, true, some ⟨[]⟩⟩).fallbackCalls +
        (detectLanguage "あ한" 1
          (detectLanguage "あ한" 1 [] ⟨true, false, 1, true, some ⟨[]⟩⟩).cache
          ⟨true, false, 1, true, some ⟨[]⟩⟩).fallbackCalls ≤ 1) := by
  decide

/-- FilterPolicy as the specification words it: unknown results filter
iff hideUnknown; low-confidence non-unknown results never filter while
hideUnknown is off; otherwise filter iff the language is not in the
allow list.  Written from the spec, to be compared with the source
function shouldFilterComment. -/
def filterPolicySpec (r : ClassificationResult) (s : Settings) : Bool :=
  if r.isUnknown then s.hideUnknown
  else if r.confidence = "low" ∧ s.hideUnknown = false then false
  else !(s.allowedLangs.contains r.lang)

/-- C4.  shouldFilterComment is exactly the spec policy, pointwise for
every classification and settings value; in particular a low-confidence
zh result is never filtered under hideUnknown off with only en allowed,
and unknown results are never filtered when hideUnknown is off,
whatever the allow list and mode. -/
theorem shouldFilter_policy :
    (∀ (r : ClassificationResult) (s : Settings),
      shouldFilterComment r s = filterPolicySpec r s) ∧
    (∀ (e : Bool) (m : String),
      shouldFilterComment ⟨"zh", false, "low"⟩ ⟨e, ["en"], m, false⟩ = false) ∧
    (∀ (lang conf : String) (e : Bool) (langs : List String) (m : String),
      shouldFilterComment ⟨lang, true, conf⟩ ⟨e, langs, m, false⟩ = false) := by
  refine ⟨?_, ?_, ?_⟩
  · intro r s
    unfold shouldFilterComment filterPolicySpec
    cases hI : r.isUnknown <;> cases hH : s.hideUnknown <;> simp [hI, hH]
  · intro e m
    unfold shouldFilterComment
    simp
  · intro lang conf e langs m
    unfold shouldFilterComment
    rw [if_pos ⟨rfl, rfl⟩]

theorem head_le_of_decomp {a r : ChromeLang} {t l₁ l₂ : List ChromeLang}
    (heq : a :: t = l₁ ++ r :: l₂)
    (hle : ∀ x ∈ l₁, x.percentage ≤ r.percentage) :
    a.percentage ≤ r.percentage := by
  cases l₁ with
  | nil =>
    have har : a = r := by
      have := congrArg (fun l => List.head? l) heq
      simpa using this
    rw [har]
  | cons y l₁' =>
    have hay : a = y := by
      have := congrArg (fun l => List.head? l) heq
      simpa using this
    rw [hay]
    exact hle y (by simp)

/-- The reduce of detectLanguage returns the last candidate attaining
the maximal percentage: the input splits around the returned element,
everything before it is at most its percentage and everything after it
is strictly below. -/
theorem reduceMax_last_max (c : ChromeLang) (l : List ChromeLang) :
    ∃ l₁ l₂, c :: l = l₁ ++ reduceMax c l :: l₂ ∧
      (∀ x ∈ l₁, x.percentage ≤ (reduceMax c l).percentage) ∧
      (∀ x ∈ l₂, x.percentage < (reduceMax c l).percentage) := by
  induction l generalizing c with
  | nil => exact ⟨[], [], rfl, by simp, by simp⟩
  | cons b t ih =>
    have hred : reduceMax c (b :: t) =
        reduceMax (if b.percentage < c.percentage then c else b) t := rfl
    by_cases hcb : b.percentage < c.percentage
    · rw [hred, if_pos hcb]
      obtain ⟨l₁, l₂, heq, hle, hlt⟩ := ih c
      cases l₁ with
      | nil =>
        have hcr : c = reduceMax c t := by
          have := congrArg (fun l => List.head? l) heq
          simpa using this
        have htl : t = l₂ := by
          have := congrArg (fun l => List.tail l) heq
          simpa using this
        refine ⟨[], b :: t, by simp [← hcr], by simp, ?_⟩
        intro x hx
        rcases List.mem_cons.mp hx with rfl | hx
        · rw [← hcr]
          exact hcb
        · exact hlt x (htl ▸ hx)
      | cons y l₁' =>
        set r := reduceMax c t with hr
        have htl : t = l₁' ++ r :: l₂ := by
          have := congrArg (fun l => List.tail l) heq
          simpa using this
        have hcler : c.percentage ≤ r.percentage :=
          head_le_of_decomp heq hle
        refine ⟨c :: b :: l₁', l₂, by rw [htl]; simp, ?_, hlt⟩
        intro x hx
        rcases List.mem_cons.mp hx with rfl | hx
        · exact hcler
        rcases List.mem_cons.mp hx with rfl | hx
        · exact le_of_lt (lt_of_lt_of_le hcb hcler)
        · exact hle x (List.mem_cons_of_mem _ hx)
    · rw [hred, if_neg hcb]
      obtain ⟨l₁, l₂, heq, hle, hlt⟩ := ih b
      have hber : b.percentage ≤ (reduceMax b t).percentage :=
        head_le_of_decomp heq hle
      refine ⟨c :: l₁, l₂, ?_, ?_, hlt⟩
      · rw [List.cons_append, ← heq]
      · intro x hx
        rcases List.mem_cons.mp hx with rfl | hx
        · exact le_trans (le_of_not_lt hcb) hber
        · exact hle x hx

theorem takeWhile_of_forall {l : List Char} {p : Char → Bool}
    (h : ∀ c ∈ l, p c = true) : l.takeWhile p = l := by
  induction l with
  | nil => rfl
  | cons c cs ih =>
    rw [List.takeWhile_cons, h c (by simp),
      ih (fun d hd => h d (List.mem_cons_of_mem _ hd))]
    simp

/-- normalizeLanguageCode always equals the hyphen-free prefix of the
code, lower-cased: when a hyphen is present this is split at the first
hyphen, and when none is present takeWhile keeps the whole string. -/
theorem normalizeLanguageCode_spec (code : String) :
    normalizeLanguageCode code =
      ⟨(code.data.takeWhile (fun c => c ≠ '-')).map Char.toLower⟩ := by
  unfold normalizeLanguageCode
  by_cases h : code.data.contains '-'
  · rw [if_pos h]
  · rw [if_neg h]
    have hall : ∀ c ∈ code.data, (fun c => decide (c ≠ '-')) c = true := by
      intro c hc
      simp only [decide_eq_true_eq]
      intro hcontra
      apply h
      rw [List.contains_eq_any_beq]
      rw [hcontra] at hc
      exact List.any_eq_true.mpr ⟨'-', hc, by simp⟩
    rw [takeWhile_of_forall hall]

/-- C7 as amended.  The adapter picks the candidate with the maximal
percentage, breaking ties in favour of the LAST-seen candidate (the
source reduce keeps the accumulator only on a strict win), and
normalizes the code to the part before the first hyphen, lower-cased. -/
theorem adapter_top_candidate_spec :
    (∀ (c : ChromeLang) (l : List ChromeLang),
      ∃ l₁ l₂, c :: l = l₁ ++ reduceMax c l :: l₂ ∧
        (∀ x ∈ l₁, x.percentage ≤ (reduceMax c l).percentage) ∧
        (∀ x ∈ l₂, x.percentage < (reduceMax c l).percentage)) ∧
    (∀ code : String,
      normalizeLanguageCode code =
        ⟨(code.data.takeWhile (fun c => c ≠ '-')).map Char.toLower⟩) :=
  ⟨reduceMax_last_max, normalizeLanguageCode_spec⟩

/-- Counterexample to C7 as stated: with candidates en and ko both at
50 percent, the first-seen maximal candidate is en, but the source
reduce returns ko, the last-seen one. -/
theorem adapter_tie_counterexample :
    reduceMax ⟨"en", 50⟩ [⟨"ko", 50⟩] = ⟨"ko", 50⟩ ∧
      (⟨"ko", 50⟩ : ChromeLang) ≠ ⟨"en", 50⟩ := by
  decide

/-- State of one comment element, as far as the content script mutates
it: the two processed markers (CSS class ylf-processed and attribute
data-ylf-processed), the filter-decision state (classes ylf-hidden and
ylf-collapsed, the injected placeholder, membership in the
originalContent WeakMap, whether the content container display is
none), whether a content container (selector main or body) exists, and
the extracted comment text (none models a missing content-text
element). -/
structure Item where
  processedClass : Bool
  processedAttr : Bool
  hidden : Bool
  collapsed : Bool
  hasPlaceholder : Bool
  hasContentContainer : Bool
  inOriginalContent : Bool
  contentHidden : Bool
  text : Option String
deriving DecidableEq, Repr

/-- markProcessed from content.js: adds the class and sets the
attribute. -/
def markProcessed (e : Item) : Item :=
  { e with processedClass := true, processedAttr := true }

/-- resetFilter from content.js: removes the hidden and collapsed
classes, removes any placeholder, and restores the content display when
the element has a container and is tracked in originalContent (both
read from fields the class removals do not touch). -/
def resetFilter (e : Item) : Item :=
  if e.hasContentContainer ∧ e.inOriginalContent then
    { e with
      hidden := false
      collapsed := false
      hasPlaceholder := false
      contentHidden := false }
  else
    { e with hidden := false, collapsed := false, hasPlaceholder := false }

def applyHideMode (e : Item) : Item := { e with hidden := true }

/-- applyCollapseMode from content.js: adds the collapsed class; when a
content container exists, records the element in originalContent, hides
the content and inserts a placeholder (whose label depends on the
detection, a display-only fact not tracked here). -/
def applyCollapseMode (e : Item) (_detection : ClassificationResult) : Item :=
  let e1 := { e with collapsed := true }
  if e1.hasContentContainer = false then e1
  else
    { e1 with
      inOriginalContent := true
      contentHidden := true
      hasPlaceholder := true }

/-- applyFilter from content.js: always resets first; then applies hide
or collapse according to the mode when the decision is to filter. -/
def applyFilter (mode : String) (e : Item) (shouldF : Bool)
    (detection : ClassificationResult) : Item :=
  let e1 := resetFilter e
  if shouldF = false then e1
  else if mode = "hide" then applyHideMode e1
  else applyCollapseMode e1 detection

/-- Outcome of one processComment call: the item state, the cache and
the number of fallback invocations performed inside. -/
structure ProcOut where
  item : Item
  cache : Cache
  fallbackCalls : Nat
deriving DecidableEq, Repr

/-- processComment from content.js.  genNow1 and genNow2 are the values
of the global generationId at the entry check and at the re-check after
the awaited classification; gen is the generation captured by the
caller.  A missing or empty (after trim) text marks the item processed
and skips classification.  When the re-check fails, the item is left
untouched (the classification, including any cache write it performed,
has already happened). -/
def processComment (settings : Settings) (gen genNow1 genNow2 : Nat)
    (env : ChromeEnv) (cache : Cache) (item : Item) : ProcOut :=
  if gen ≠ genNow1 then ⟨item, cache, 0⟩
  else if settings.enabled = false then ⟨item, cache, 0⟩
  else
    match item.text with
    | none => ⟨markProcessed item, cache, 0⟩
    | some raw =>
      let text := jsTrimStr raw
      if text = "" then ⟨markProcessed item, cache, 0⟩
      else
        let o := detectLanguage text gen cache env
        if gen ≠ genNow2 then ⟨item, o.cache, o.fallbackCalls⟩
        else
          let f := shouldFilterComment o.result settings
          ⟨markProcessed (applyFilter settings.mode item f o.result),
            o.cache, o.fallbackCalls⟩

/-- queueComments from content.js, acting on the pending queue.  Items
are identified by opaque ids; processedA and processedC give the
data-attribute and class marker of each id.  The filter predicate reads
the queue as it was BEFORE the push, exactly as the source filter
closure does over the not-yet-updated pendingComments array. -/
def queueComments (gen genNow : Nat) (processedA processedC : Nat → Bool)
    (pending : List Nat) (comments : List Nat) : List Nat :=
  if gen ≠ genNow then pending
  else
    pending ++ comments.filter
      (fun c => !processedA c && !processedC c && !pending.contains c)

/-- Scheduler state touched by processQueue: the pending queue and the
isProcessing flag. -/
structure QState where
  pending : List Nat
  isProcessing : Bool
deriving DecidableEq, Repr

/-- The while loop of processQueue: obs i is the value of the global
generationId observed at the i-th loop-condition check; each iteration
splices a batch of BATCH_SIZE = 20 off the front and processes it (the
per-item effects live in processComment; they never touch the queue or
the flag).  Fuel is the queue length: every iteration removes at least
one element, so the fuel never runs out. -/
def drainLoop (gen : Nat) (obs : Nat → Nat) : Nat → Nat → List Nat → List Nat
  | 0, _, pending => pending
  | fuel + 1, i, pending =>
    if pending ≠ [] ∧ obs i = gen then
      drainLoop gen obs fuel (i + 1) (pending.drop 20)
    else pending

/-- processQueue from content.js: a stale generation at entry clears
the queue and returns; an already-running drain or an empty queue
returns unchanged; otherwise the drain loop runs and the finally block
clears isProcessing. -/
def processQueue (gen : Nat) (obs : Nat → Nat) (st : QState) : QState :=
  if obs 0 ≠ gen then ⟨[], st.isProcessing⟩
  else if st.isProcessing ∨ st.pending = [] then st
  else ⟨drainLoop gen obs st.pending.length 1 st.pending, false⟩

/-- The per-element body of reprocessAllComments: remove the processed
class and attribute, then resetFilter. -/
def reprocessItem (e : Item) : Item :=
  resetFilter { e with processedClass := false, processedAttr := false }

/-- reprocessAllComments from content.js: bump the generation, apply
reprocessItem to every element carrying the processed class, clear the
classification cache (re-discovery then re-queues everything under the
new generation, via queueComments). -/
def reprocessAllComments (genId : Nat) (items : List Item) (_cache : Cache) :
    Nat × List Item × Cache :=
  (genId + 1,
    items.map (fun e => if e.processedClass then reprocessItem e else e),
    ([] : Cache))

example :
    (processComment ⟨true, ["en"], "hide", false⟩ 1 1 1
      ⟨true, false, 1, false, none⟩ []
      ⟨false, false, false, false, false, true, false, false, some "한글"⟩).item.hidden
      = true := by decide
example :
    (queueComments 1 1 (fun _ => false) (fun _ => false) [] [5, 5]) = [5, 5] := by
  decide
example :
    (processQueue 1 (fun i => if i ≤ 1 then 1 else 2)
      ⟨List.range 21, false⟩).pending = [20] := by decide

theorem safeDetectLanguage_stale (sample : String) (gen : Nat) (env : ChromeEnv)
    (hstale : env.genAtResolve ≠ gen) :
    safeDetectLanguage sample gen env = none := by
  unfold safeDetectLanguage
  by_cases h1 : env.runtimeValid = false
  · rw [if_pos h1]
  · rw [if_neg h1]
    by_cases h2 : env.callThrows = true
    · rw [if_pos h2]
    · rw [if_neg h2, if_pos hstale]

/-- C1.  Epoch invalidation: when the fallback path is reached (cache
miss, uncertain heuristic) and the epoch is bumped after the call
starts but before the callback resolves (and stays bumped at the
re-check), the hybrid classifier returns the canonical unknown result,
the cache is left exactly as it was (the resolved value is not
written), and processComment leaves the item untouched: no filter
decision is applied and the item is not marked processed. -/
theorem epoch_invalidation (s : Settings) (gen genNow2 : Nat) (env : ChromeEnv)
    (cache : Cache) (item : Item) (raw : String)
    (hen : s.enabled = true)
    (htext : item.text = some raw)
    (hne : jsTrimStr raw ≠ "")
    (hmiss : cacheGet cache (cacheKeyOf (jsTrimStr raw)) = none)
    (hunc : (heuristicDetect (jsTrimStr raw)).lang = "uncertain")
    (hstale1 : env.genAtResolve ≠ gen)
    (hstale2 : genNow2 ≠ gen) :
    (detectLanguage (jsTrimStr raw) gen cache env).result =
        ⟨"unknown", true, "low"⟩ ∧
      (detectLanguage (jsTrimStr raw) gen cache env).cache = cache ∧
      (processComment s gen gen genNow2 env cache item).item = item := by
  have hsd := safeDetectLanguage_stale (sampleOf (jsTrimStr raw)) gen env hstale1
  have hdet : detectLanguage (jsTrimStr raw) gen cache env =
      ⟨⟨"unknown", true, "low"⟩, cache, 1⟩ := by
    simp only [detectLanguage, hmiss]
    rw [if_neg (by rw [hunc]; simp), if_neg (by rw [hunc]; simp)]
    simp only [hsd]
  refine ⟨by rw [hdet], by rw [hdet], ?_⟩
  unfold processComment
  rw [if_neg (by simp)]
  rw [if_neg (by rw [hen]; simp)]
  simp only [htext]
  rw [if_neg hne, if_pos (Ne.symm hstale2)]

/-- Witness for C1: an uncertain Hangul-kana mix, epoch bumped from 1
to 2 while the fallback resolves ja at 95 percent; the verdict is
discarded, nothing is cached, and the item is left untouched. -/
theorem epoch_invalidation_witness :
    (heuristicDetect (jsTrimStr "あ한")).lang = "uncertain" ∧
      (detectLanguage (jsTrimStr "あ한") 1 []
        ⟨true, false, 2, false, some ⟨[⟨"ja", 95⟩]⟩⟩).cache = [] ∧
      (processComment ⟨true, ["en"], "hide", false⟩ 1 1 2
        ⟨true, false, 2, false, some ⟨[⟨"ja", 95⟩]⟩⟩ []
        ⟨false, false, false, false, false, true, false, false, some "あ한"⟩).item =
        ⟨false, false, false, false, false, true, false, false, some "あ한"⟩ :=
  ⟨by decide,
    (epoch_invalidation ⟨true, ["en"], "hide", false⟩ 1 2
      ⟨true, false, 2, false, some ⟨[⟨"ja", 95⟩]⟩⟩ []
      ⟨false, false, false, false, false, true, false, false, some "あ한"⟩ "あ한"
      rfl rfl (by decide) (by decide) (by decide) (by decide) (by decide)).2.1,
    (epoch_invalidation ⟨true, ["en"], "hide", false⟩ 1 2
      ⟨true, false, 2, false, some ⟨[⟨"ja", 95⟩]⟩⟩ []
      ⟨false, false, false, false, false, true, false, false, some "あ한"⟩ "あ한"
      rfl rfl (by decide) (by decide) (by decide) (by decide) (by decide)).2.2⟩

theorem drainLoop_drop (gen : Nat) (obs : Nat → Nat) :
    ∀ (fuel i : Nat) (pending : List Nat),
      ∃ k, drainLoop gen obs fuel i pending = pending.drop (20 * k) := by
  intro fuel
  induction fuel with
  | zero =>
    intro i pending
    exact ⟨0, by simp [drainLoop]⟩
  | succ n ih =>
    intro i pending
    unfold drainLoop
    by_cases h : pending ≠ [] ∧ obs i = gen
    · rw [if_pos h]
      obtain ⟨k, hk⟩ := ih (i + 1) (pending.drop 20)
      refine ⟨k + 1, ?_⟩
      rw [hk, List.drop_drop]
      congr 1
      omega
    · rw [if_neg h]
      exact ⟨0, by simp⟩

/-- C6 as amended.  When a drain runs (isProcessing was clear), the
finally block always leaves isProcessing clear and the loop exits with
the pending queue equal to some batch-aligned suffix of the original
queue: an abort caused by a stale epoch raises no error but leaves the
not-yet-processed remainder IN the queue; only a later processQueue
entry under a stale generation (or resetObservers) empties it. -/
theorem drain_stale_aborts (gen : Nat) (obs : Nat → Nat) (st : QState)
    (hrun : st.isProcessing = false) :
    (processQueue gen obs st).isProcessing = false ∧
      ∃ k, (processQueue gen obs st).pending = st.pending.drop (20 * k) := by
  unfold processQueue
  by_cases h0 : obs 0 ≠ gen
  · rw [if_pos h0]
    exact ⟨hrun, st.pending.length,
      (List.drop_eq_nil_of_le (by omega)).symm⟩
  · rw [if_neg h0]
    by_cases h1 : st.isProcessing = true ∨ st.pending = []
    · rw [if_pos h1]
      exact ⟨hrun, 0, by simp⟩
    · rw [if_neg h1]
      obtain ⟨k, hk⟩ := drainLoop_drop gen obs st.pending.length 1 st.pending
      exact ⟨rfl, k, hk⟩

/-- Witness for amended C6: 21 queued items, epoch current at entry and
for the first batch check, stale at the second: the final state has
isProcessing clear, and the queue is a batch-aligned suffix. -/
theorem drain_stale_aborts_witness :
    (⟨List.range 21, false⟩ : QState).isProcessing = false ∧
      ((processQueue 1 (fun i => if i ≤ 1 then 1 else 2)
          ⟨List.range 21, false⟩).isProcessing = false ∧
        ∃ k, (processQueue 1 (fun i => if i ≤ 1 then 1 else 2)
          ⟨List.range 21, false⟩).pending = (List.range 21).drop (20 * k)) :=
  ⟨rfl, drain_stale_aborts 1 (fun i => if i ≤ 1 then 1 else 2)
    ⟨List.range 21, false⟩ rfl⟩

/-- Counterexample to C6 as stated: in the witness scenario the loop
exits because of staleness with one unprocessed item still pending, so
the pending queue is NOT empty after the abort. -/
theorem drain_stale_counterexample :
    (processQueue 1 (fun i => if i ≤ 1 then 1 else 2)
        ⟨List.range 21, false⟩).pending ≠ [] ∧
      (processQueue 1 (fun i => if i ≤ 1 then 1 else 2)
        ⟨List.range 21, false⟩).isProcessing = false := by
  decide

/-- C8 as amended.  queueComments keeps the queue duplicate-free for
every duplicate-free discovery list and duplicate-free prior queue: the
filter drops items already queued or marked processed, and appends the
survivors.  The unamended claim fails for discovery lists that contain
a handle twice, because the filter predicate consults the queue as it
was before the push. -/
theorem queue_dedup (gen genNow : Nat) (pA pC : Nat → Bool)
    (pending comments : List Nat) (hc : comments.Nodup) (hp : pending.Nodup) :
    (queueComments gen genNow pA pC pending comments).Nodup := by
  unfold queueComments
  by_cases h : gen ≠ genNow
  · rw [if_pos h]
    exact hp
  · rw [if_neg h]
    refine List.Nodup.append hp (hc.filter _) ?_
    intro x hx hxf
    obtain ⟨hmem, hpred⟩ := List.mem_filter.mp hxf
    have hnc : pending.contains x = false := by
      rcases Bool.and_eq_true_iff.mp hpred with ⟨_, h2⟩
      simpa using h2
    rw [List.contains_eq_any_beq] at hnc
    have : ¬ x ∈ pending := by
      intro hmem2
      have : pending.any (x == ·) = true :=
        List.any_eq_true.mpr ⟨x, hmem2, by simp⟩
      rw [this] at hnc
      exact absurd hnc (by simp)
    exact this hx

/-- Witness for amended C8: enqueue of two fresh distinct items onto a
singleton queue stays duplicate-free. -/
theorem queue_dedup_witness :
    ([1, 2] : List Nat).Nodup ∧ ([0] : List Nat).Nodup ∧
      (queueComments 1 1 (fun _ => false) (fun _ => false) [0] [1, 2]).Nodup :=
  ⟨by decide, by decide,
    queue_dedup 1 1 (fun _ => false) (fun _ => false) [0] [1, 2]
      (by decide) (by decide)⟩

/-- Counterexample to C8 as stated: a discovery list containing the
same fresh handle twice enqueues it twice, because the filter reads the
pre-push queue, so the handle appears twice in the queue afterwards. -/
theorem queue_dedup_counterexample :
    ¬ ((queueComments 1 1 (fun _ => false) (fun _ => false) [] [0, 0]).count 0 ≤ 1) := by
  decide

theorem reprocessItem_state (e : Item) :
    (reprocessItem e).processedClass = false ∧
      (reprocessItem e).processedAttr = false ∧
      (reprocessItem e).hidden = false ∧
      (reprocessItem e).collapsed = false ∧
      (reprocessItem e).hasPlaceholder = false := by
  by_cases hcc : e.hasContentContainer = true ∧ e.inOriginalContent = true
  · simp [reprocessItem, resetFilter, hcc]
  · simp [reprocessItem, resetFilter, hcc]

/-- C9.  Processed-marker monotonicity: processComment (the per-item
body of every drain) never clears either processed marker once set, and
markProcessed is idempotent; queueComments only reads markers (its type
touches nothing but the queue).  The explicit reset reprocessAllComments
is the one operation that clears the marker, and it also clears the
applied filter state (hidden, collapsed, placeholder); after it runs no
item carries the processed class. -/
theorem processed_marker_monotone :
    (∀ (s : Settings) (gen g1 g2 : Nat) (env : ChromeEnv) (cache : Cache)
      (item : Item), item.processedClass = true →
      (processComment s gen g1 g2 env cache item).item.processedClass = true) ∧
    (∀ (s : Settings) (gen g1 g2 : Nat) (env : ChromeEnv) (cache : Cache)
      (item : Item), item.processedAttr = true →
      (processComment s gen g1 g2 env cache item).item.processedAttr = true) ∧
    (∀ e : Item, markProcessed (markProcessed e) = markProcessed e) ∧
    (∀ e : Item, e.processedClass = true →
      (reprocessItem e).processedClass = false ∧
      (reprocessItem e).processedAttr = false ∧
      (reprocessItem e).hidden = false ∧
      (reprocessItem e).collapsed = false ∧
      (reprocessItem e).hasPlaceholder = false) ∧
    (∀ (g : Nat) (items : List Item) (cache : Cache),
      ∀ e ∈ (reprocessAllComments g items cache).2.1, e.processedClass = false) := by
  refine ⟨?_, ?_, ?_, ?_, ?_⟩
  · intro s gen g1 g2 env cache item h
    unfold processComment
    by_cases h1 : gen ≠ g1
    · rw [if_pos h1]; exact h
    · rw [if_neg h1]
      by_cases h2 : s.enabled = false
      · rw [if_pos h2]; exact h
      · rw [if_neg h2]
        cases htext : item.text with
        | none => rfl
        | some raw =>
          dsimp only
          by_cases h3 : jsTrimStr raw = ""
          · rw [if_pos h3]; rfl
          · rw [if_neg h3]
            by_cases h4 : gen ≠ g2
            · rw [if_pos h4]; exact h
            · rw [if_neg h4]; rfl
  · intro s gen g1 g2 env cache item h
    unfold processComment
    by_cases h1 : gen ≠ g1
    · rw [if_pos h1]; exact h
    · rw [if_neg h1]
      by_cases h2 : s.enabled = false
      · rw [if_pos h2]; exact h
      · rw [if_neg h2]
        cases htext : item.text with
        | none => rfl
        | some raw =>
          dsimp only
          by_cases h3 : jsTrimStr raw = ""
          · rw [if_pos h3]; rfl
          · rw [if_neg h3]
            by_cases h4 : gen ≠ g2
            · rw [if_pos h4]; exact h
            · rw [if_neg h4]; rfl
  · intro e
    rfl
  · intro e _
    exact reprocessItem_state e
  · intro g items cache e he
    simp only [reprocessAllComments, List.mem_map] at he
    obtain ⟨a, ha, rfl⟩ := he
    by_cases hp : a.processedClass = true
    · rw [if_pos hp]
      exact (reprocessItem_state a).1
    · rw [if_neg hp]
      simpa using hp

/-- Witness for C9: a marked item stays marked through processComment,
and reprocessItem clears the marker and the filter state of a marked,
hidden item. -/
theorem processed_marker_monotone_witness :
    (processComment ⟨true, ["en"], "hide", false⟩ 1 1 1
        ⟨true, false, 1, false, none⟩ []
        ⟨true, true, true, false, false, true, false, false, some "hello"⟩).item.processedClass
        = true ∧
      (reprocessItem
        ⟨true, true, true, false, false, true, false, false, some "hello"⟩).processedClass
        = false :=
  ⟨processed_marker_monotone.1 ⟨true, ["en"], "hide", false⟩ 1 1 1
      ⟨true, false, 1, false, none⟩ []
      ⟨true, true, true, false, false, true, false, false, some "hello"⟩ rfl,
    (processed_marker_monotone.2.2.2.1
      ⟨true, true, true, false, false, true, false, false, some "hello"⟩ rfl).1⟩
